import Mathlib

/-!
Verification development for the `gh-pr` pull-request analysis tool
(source: `cli.py`).  The Python program is shallowly embedded: dict rows
become association lists of string keys to tagged values, fallible dict
indexing becomes `Option`, and in-place mutation of rows is made explicit
by returning the post-state of the mutated sequence.
-/

namespace GhPr

/-- A Python dict value as it occurs in a metrics row: either an `int`
(counts, PR number, days open) or a `str` (title, file types, and the
delta-annotated display strings produced by `calculate_diffs`). -/
inductive Value where
  | vint (n : Int)
  | vstr (s : String)
deriving DecidableEq, Repr

/-- A metrics row: a Python dict in insertion order (keys with tagged
values).  Built by `process_pr` with the seven standard keys; inside the
diff engine arbitrary well-formed rows may flow through. -/
abbrev Row := List (String × Value)

/-- Dict read `r[k]` returning `none` where Python raises `KeyError`
(first occurrence wins; real dicts have unique keys). -/
def pyGet (r : Row) (k : String) : Option Value :=
  match r with
  | [] => none
  | (k', v) :: rest => if k' = k then some v else pyGet rest k

/-- Dict write `r[k] = v`: replaces the value in place when the key is
present (keeping its position, as Python dicts do), otherwise appends the
new key at the end. -/
def pySet (r : Row) (k : String) (v : Value) : Row :=
  match r with
  | [] => [(k, v)]
  | (k', v') :: rest => if k' = k then (k, v) :: rest else (k', v') :: pySet rest k v

/-- A review as consumed by the tool: the reviewer login (`user.login`)
and the raw review state string. -/
structure Review where
  login : String
  state : String
deriving DecidableEq, Repr

/-- The raw pull-request fields the tool reads: `number`, `title`,
`created_at` (already parsed from the fixed `%Y-%m-%dT%H:%M:%SZ` format
into seconds since the epoch, the parse being injective on that format)
and the `draft` flag. -/
structure PullRequest where
  number : Int
  title : String
  created_at : Int
  draft : Bool
deriving DecidableEq, Repr

/-- The per-PR detail set: reviews (logins and states are consulted),
comments and commits (only `len()` is consulted, so modelled by their
counts), and the changed files' filenames. -/
structure PRDetails where
  reviews : List Review
  comments : Nat
  commits : Nat
  files : List String
deriving DecidableEq, Repr

/-- Python `str.split(sep)` for a one-character separator, on the
code-point list of the string: `"a.b".split "." = ["a","b"]`,
`"".split "." = [""]`, `"x.".split "." = ["x",""]`. -/
def splitChars (sep : Char) : List Char → List (List Char)
  | [] => [[]]
  | c :: rest =>
    match splitChars sep rest with
    | [] => if c = sep then [[], []] else [[c]]
    | g :: gs => if c = sep then [] :: g :: gs else (c :: g) :: gs

/-- Extension of one filename, from `process_pr`:
`f['filename'].split('.')[-1] if '.' in f['filename'] else 'no_ext'`
(Python splits and lowers by code point, hence the char-list model). -/
def extOf (filename : String) : String :=
  if filename.data.contains '.' then ⟨(splitChars '.' filename.data).getLastD []⟩
  else "no_ext"

/-- Lexicographic comparison of code-point lists, Python's `str` order. -/
def charsLe : List Char → List Char → Bool
  | [], _ => true
  | _ :: _, [] => false
  | a :: as, b :: bs =>
    if a.toNat < b.toNat then true
    else if b.toNat < a.toNat then false
    else charsLe as bs

/-- Python string comparison `a <= b` (by code points). -/
def strLe (a b : String) : Bool :=
  charsLe a.data b.data

/-- Insert a string into a list so that an ascending list stays
ascending (the insertion step of a stable sort). -/
def insertStr (a : String) : List String → List String
  | [] => [a]
  | b :: l => if strLe a b then a :: b :: l else b :: insertStr a l

/-- Python `sorted` on a list of strings (insertion sort; on lists of
distinct elements any stable ascending sort agrees). -/
def pySortStrs : List String → List String
  | [] => []
  | a :: l => insertStr a (pySortStrs l)

/-- The distinct extensions of a file list, sorted lexicographically
(Python's `sorted(set(...))`). -/
def sortedExts (files : List String) : List String :=
  pySortStrs (files.map extOf).dedup

/-- Python `sep.join(parts)`. -/
def joinSep (sep : String) : List String → String
  | [] => ""
  | [s] => s
  | s :: rest => s ++ sep ++ joinSep sep rest

/-- The File Types display text: `', '.join(sorted(file_types))`. -/
def fileTypesText (files : List String) : String :=
  joinSep ", " (sortedExts files)

/-- Days-open computation `(datetime.now() - created_date).days`:
the exact difference in seconds, floor-divided by 86400 (Python
`timedelta.days` floors, also for negative differences).  `now` is the
run's clock reading in seconds. -/
def daysOpen (now created : Int) : Int :=
  Int.fdiv (now - created) 86400

/-- Embeds `InlinePRAnalyzer.process_pr`: reduces one PR plus its detail
set to the seven-field metrics row, in the dict-literal order of the
source.  (The `approvers` list computed there is dead code and has no
effect on the returned dict.) -/
def process_pr (now : Int) (pr : PullRequest) (details : PRDetails) : Row :=
  [("PR #", .vint pr.number),
   ("Title", .vstr pr.title),
   ("Days Open", .vint (daysOpen now pr.created_at)),
   ("Files Changed", .vint details.files.length),
   ("Commits", .vint details.commits),
   ("File Types", .vstr (fileTypesText details.files)),
   ("Comments", .vint details.comments)]

/-- Python `str.lower()` by code point. -/
def strLower (s : String) : String :=
  ⟨s.data.map Char.toLower⟩

/-- Python `str.upper()` by code point. -/
def strUpper (s : String) : String :=
  ⟨s.data.map Char.toUpper⟩

/-- The `approvers` list built both in `process_pr` and in
`get_available_statuses`: logins of reviews whose state lowercases to
`approved`. -/
def approversOf (reviews : List Review) : List String :=
  (reviews.filter fun r => decide (strLower r.state = "approved")).map Review.login

/-- The per-PR status decision of `get_available_statuses`: a draft PR
is `DRAFT` (its reviews are never fetched); otherwise `READY` exactly
when the approvers list is non-empty, else `PENDING REVIEW`. -/
def classify (draft : Bool) (reviews : List Review) : String :=
  if draft then "DRAFT"
  else if approversOf reviews ≠ [] then "READY"
  else "PENDING REVIEW"

/-- The extra raw states a non-draft PR contributes to the status set:
each review state whose uppercase form is neither `APPROVED` nor
`COMMENTED`, uppercased. -/
def extraStates (reviews : List Review) : List String :=
  (reviews.filter fun r =>
      decide (strUpper r.state ∉ (["APPROVED", "COMMENTED"] : List String))).map
    fun r => strUpper r.state

/-- All status labels one PR adds to the aggregate set in the loop of
`get_available_statuses`. -/
def prStatuses (pr : PullRequest) (details : PRDetails) : List String :=
  if pr.draft then ["DRAFT"]
  else classify pr.draft details.reviews :: extraStates details.reviews

/-- Embeds `InlinePRAnalyzer.get_available_statuses`: the set starts at
`{'ALL'}`, accumulates every PR's labels, and is returned as a sorted
list (`sorted(list(statuses))`).  `dedup` plays the role of the Python
`set`; the sorted result is independent of accumulation order. -/
def get_available_statuses (prs : List (PullRequest × PRDetails)) : List String :=
  pySortStrs (("ALL" :: (prs.map fun pd => prStatuses pd.1 pd.2).flatten).dedup)

set_option linter.unusedVariables false in
/-- Embeds the record computation of `InlinePRAnalyzer.analyze` (lines
196-199): after the selected statuses are obtained, the analyzer fetches
all of the user's PRs and maps `process_pr` over them.  The
`selectedStatuses` argument is threaded to match the call flow but, as
in the source, it is never consulted: no filtering happens. -/
def analyze_pr_data (now : Int) (prs : List (PullRequest × PRDetails))
    (selectedStatuses : List String) : List Row :=
  prs.map fun pd => process_pr now pd.1 pd.2

/-- One step of the detail-fetch schedule of `analyze`: a group of PR
detail fetches issued concurrently and awaited together, or a sleep. -/
inductive FetchStep where
  | batch (prNumbers : List Int)
  | pause (ms : Nat)
deriving DecidableEq, Repr

/-- Embeds line 197 of `analyze`:
`await asyncio.gather(*[self.client.get_pr_details(pr['number']) for pr in prs])`
is a single await group over every PR at once; the source contains no
chunking and no sleep between groups. -/
def detailFetchPlan (prs : List PullRequest) : List FetchStep :=
  [FetchStep.batch (prs.map PullRequest.number)]

/-- Number of await groups in a fetch schedule. -/
def batchCount (plan : List FetchStep) : Nat :=
  (plan.filter fun s => match s with | .batch _ => true | .pause _ => false).length

/-- Number of sleep steps in a fetch schedule. -/
def pauseCount (plan : List FetchStep) : Nat :=
  (plan.filter fun s => match s with | .batch _ => false | .pause _ => true).length

/-- Largest number of simultaneously in-flight detail requests in a
fetch schedule. -/
def maxInFlight (plan : List FetchStep) : Nat :=
  (plan.map fun s => match s with | .batch ns => ns.length | .pause _ => 0).foldr max 0

/-- Decimal digits of a positive natural (fuel-driven so that the kernel
can evaluate it; `fuel ≥ n` suffices). -/
def natToCharsAux : Nat → Nat → List Char
  | 0, _ => []
  | fuel + 1, n =>
    if n = 0 then []
    else natToCharsAux fuel (n / 10) ++ [Char.ofNat (48 + n % 10)]

/-- Python `str(n)` for a natural number. -/
def natToStr (n : Nat) : String :=
  if n = 0 then "0" else ⟨natToCharsAux n n⟩

/-- Python `str(i)` for an integer. -/
def intToStr : Int → String
  | .ofNat n => natToStr n
  | .negSucc n => "-" ++ natToStr (n + 1)

/-- The replacement display text of `calculate_diffs` for a changed
numeric field: `f"{curr_value} ([{color}]{diff:+d}[/])"`. -/
def deltaText (c d : Int) : String :=
  intToStr c ++ " ([" ++ (if d > 0 then "green" else "red") ++ "]" ++
    (if d > 0 then "+" ++ intToStr d else intToStr d) ++ "[/])"

/-- The in-place mutation `closed_pr['Status'] = '[red]CLOSED[/]'`. -/
def markClosed (p : Row) : Row :=
  pySet p "Status" (.vstr "[red]CLOSED[/]")

/-- The lookup `next((p for p in previous_data if p['PR #'] == pr_number), None)`.
Outer `none` is the `KeyError` raised when a scanned record lacks
`'PR #'`; `some none` is a completed scan without a match. -/
def findPrev (previous : List Row) (n : Value) : Option (Option Row) :=
  match previous with
  | [] => some none
  | p :: rest => do
    let pn ← pyGet p "PR #"
    if pn = n then some (some p) else findPrev rest n

/-- The per-key loop of `calculate_diffs` over `curr.items()`: skips the
three excluded keys, reads `prev[key]` (a missing key is an uncaught
`KeyError`, hence `none`), and on a non-zero integer difference replaces
the key's display value in the accumulating row.  Non-numeric values are
left untouched by the `isinstance` guard. -/
def applyDiffs (prev : Row) : List (String × Value) → Row → Option Row
  | [], row => some row
  | (k, cv) :: items, row =>
    if k = "PR #" ∨ k = "Title" ∨ k = "File Types" then applyDiffs prev items row
    else
      match pyGet prev k with
      | none => none
      | some pv =>
        match cv, pv with
        | .vint c, .vint p =>
          if c - p ≠ 0 then applyDiffs prev items (pySet row k (.vstr (deltaText c (c - p))))
          else applyDiffs prev items row
        | _, _ => applyDiffs prev items row

/-- The first loop of `calculate_diffs`: one output row per current row,
in order — the row itself when no previous record shares its PR number,
otherwise the copy with changed numeric fields annotated. -/
def diffRows (previous : List Row) : List Row → Option (List Row)
  | [] => some []
  | curr :: rest => do
    let n ← pyGet curr "PR #"
    let prevMatch ← findPrev previous n
    let row ←
      match prevMatch with
      | none => some curr
      | some prev => applyDiffs prev curr curr
    let rows ← diffRows previous rest
    some (row :: rows)

/-- The generator `any(c['PR #'] == p['PR #'] for c in current_data)`,
with Python's evaluation order: `c['PR #']` before `p['PR #']`, nothing
evaluated when `current` is empty, short-circuit on the first match. -/
def anyMatch (current : List Row) (p : Row) : Option Bool :=
  match current with
  | [] => some false
  | c :: rest => do
    let cn ← pyGet c "PR #"
    let pn ← pyGet p "PR #"
    if cn = pn then some true else anyMatch rest p

/-- The closed-PR pass of `calculate_diffs`: filters `previous_data` for
records whose PR number no longer occurs, then mutates each one in place
with a CLOSED status marker.  Returns the post-mutation previous
sequence together with the rows appended to the result (the same,
mutated, objects). -/
def closeMissing (current : List Row) : List Row → Option (List Row × List Row)
  | [] => some ([], [])
  | p :: rest => do
    let b ← anyMatch current p
    let (prevOut, closed) ← closeMissing current rest
    if b then some (p :: prevOut, closed)
    else some (markClosed p :: prevOut, markClosed p :: closed)

/-- Embeds `InlinePRAnalyzer.calculate_diffs`.  Returns the result list
(current-derived rows then closed rows) together with the post-state of
`previous_data`, whose closed records have been mutated in place;
`none` models the uncaught `KeyError` on a record without `'PR #'` or on
a `prev` record missing a compared key. -/
def calculate_diffs (current previous : List Row) : Option (List Row × List Row) := do
  let rows ← diffRows previous current
  let (prevOut, closed) ← closeMissing current previous
  some (rows ++ closed, prevOut)

/-- One user's persisted state: `{'timestamp': ..., 'data': [...]}`. -/
structure Snapshot where
  timestamp : String
  data : List Row
deriving DecidableEq, Repr

/-- The whole history file: username keyed snapshots. -/
abbrev History := List (String × Snapshot)

/-- Dict read of the history mapping. -/
def histGet (h : History) (u : String) : Option Snapshot :=
  match h with
  | [] => none
  | (u', s) :: rest => if u' = u then some s else histGet rest u

/-- Dict write of the history mapping (replace in place or append). -/
def histSet (h : History) (u : String) (s : Snapshot) : History :=
  match h with
  | [] => [(u, s)]
  | (u', s') :: rest => if u' = u then (u, s) :: rest else (u', s') :: histSet rest u s

/-- Embeds `HistoryManager.save_results`: reload the history, overwrite
this user's entry with a fresh timestamp and the given rows, keep every
other user's entry. -/
def save_results (hist : History) (user : String) (ts : String) (prData : List Row) : History :=
  histSet hist user ⟨ts, prData⟩

/-- What `display_results` emits. -/
inductive Rendered where
  | jsonOut (d : List Row)
  | noRows
  | tableOut (rows : List Row)
deriving DecidableEq, Repr

/-- Embeds `InlinePRAnalyzer.display_results`: the `json` format prints
the data and returns at once; the table path loads the user's previous
snapshot, diffs against it when non-empty, prints, and saves the
displayed rows under the user's key with the run's timestamp `ts`.
`none` models an uncaught `KeyError` escaping `calculate_diffs`. -/
def display_results (outputFmt : String) (hist : History) (ts : String)
    (data : List Row) (user : String) : Option (History × Rendered) :=
  if outputFmt = "json" then some (hist, .jsonOut data)
  else
    let previous_data :=
      match histGet hist user with
      | some snap => snap.data
      | none => []
    let dataNow : Option (List Row) :=
      if previous_data = [] then some data
      else (calculate_diffs data previous_data).map Prod.fst
    match dataNow with
    | none => none
    | some d =>
      if d = [] then some (hist, .noRows)
      else some (save_results hist user ts d, .tableOut d)

/-! Order facts about the string comparator and the sort. -/

theorem charsLe_cons (a b : Char) (as bs : List Char) :
    charsLe (a :: as) (b :: bs) = true ↔
      a.toNat < b.toNat ∨ (a.toNat = b.toNat ∧ charsLe as bs = true) := by
  have hstep : charsLe (a :: as) (b :: bs) =
      if a.toNat < b.toNat then true
      else if b.toNat < a.toNat then false else charsLe as bs := rfl
  rw [hstep]
  by_cases h1 : a.toNat < b.toNat
  · simp only [if_pos h1]
    exact ⟨fun _ => Or.inl h1, fun _ => trivial⟩
  · rw [if_neg h1]
    by_cases h2 : b.toNat < a.toNat
    · rw [if_pos h2]
      constructor
      · intro h; simp at h
      · rintro (h | ⟨h, _⟩) <;> omega
    · rw [if_neg h2]
      have h3 : a.toNat = b.toNat := by omega
      constructor
      · intro h; exact Or.inr ⟨h3, h⟩
      · rintro (h | ⟨_, hc⟩)
        · omega
        · exact hc

theorem charsLe_total : ∀ x y : List Char, charsLe x y = true ∨ charsLe y x = true
  | [], _ => Or.inl rfl
  | _ :: _, [] => Or.inr rfl
  | a :: as, b :: bs => by
    rw [charsLe_cons, charsLe_cons]
    rcases Nat.lt_trichotomy a.toNat b.toNat with h | h | h
    · exact Or.inl (Or.inl h)
    · rcases charsLe_total as bs with hh | hh
      · exact Or.inl (Or.inr ⟨h, hh⟩)
      · exact Or.inr (Or.inr ⟨h.symm, hh⟩)
    · exact Or.inr (Or.inl h)

theorem charsLe_trans : ∀ x y z : List Char,
    charsLe x y = true → charsLe y z = true → charsLe x z = true
  | [], _, _, _, _ => rfl
  | _ :: _, [], _, hxy, _ => by simp [charsLe] at hxy
  | _ :: _, _ :: _, [], _, hyz => by simp [charsLe] at hyz
  | a :: as, b :: bs, c :: cs, hxy, hyz => by
    rw [charsLe_cons] at hxy hyz ⊢
    rcases hxy with h | ⟨h, hxy'⟩ <;> rcases hyz with h' | ⟨h', hyz'⟩
    · exact Or.inl (by omega)
    · exact Or.inl (by omega)
    · exact Or.inl (by omega)
    · exact Or.inr ⟨by omega, charsLe_trans as bs cs hxy' hyz'⟩

theorem strLe_total (a b : String) : strLe a b = true ∨ strLe b a = true :=
  charsLe_total a.data b.data

theorem strLe_trans {a b c : String} (h1 : strLe a b = true) (h2 : strLe b c = true) :
    strLe a c = true :=
  charsLe_trans a.data b.data c.data h1 h2

theorem insertStr_perm (a : String) : ∀ l : List String, (insertStr a l).Perm (a :: l)
  | [] => List.Perm.refl _
  | b :: l => by
    unfold insertStr
    by_cases h : strLe a b = true
    · simp [h]
    · simp only [h, ite_false, if_neg, not_false_iff]
      exact ((insertStr_perm a l).cons b).trans (List.Perm.swap a b l)

theorem pySortStrs_perm : ∀ l : List String, (pySortStrs l).Perm l
  | [] => List.Perm.refl _
  | a :: l => (insertStr_perm a (pySortStrs l)).trans ((pySortStrs_perm l).cons a)

theorem mem_insertStr {a x : String} {l : List String} :
    x ∈ insertStr a l ↔ x = a ∨ x ∈ l := by
  rw [(insertStr_perm a l).mem_iff, List.mem_cons]

theorem insertStr_pairwise (a : String) : ∀ l : List String,
    l.Pairwise (fun x y => strLe x y = true) →
    (insertStr a l).Pairwise (fun x y => strLe x y = true)
  | [], _ => by simp [insertStr]
  | b :: l, h => by
    rcases List.pairwise_cons.mp h with ⟨hb, hl⟩
    unfold insertStr
    by_cases hab : strLe a b = true
    · simp only [hab, ite_true, if_pos]
      refine List.pairwise_cons.mpr ⟨?_, h⟩
      intro x hx
      rcases List.mem_cons.mp hx with rfl | hx
      · exact hab
      · exact strLe_trans hab (hb x hx)
    · have hba : strLe b a = true := (strLe_total a b).resolve_left hab
      simp only [hab, ite_false, if_neg, not_false_iff]
      refine List.pairwise_cons.mpr ⟨?_, insertStr_pairwise a l hl⟩
      intro x hx
      rcases mem_insertStr.mp hx with rfl | hx
      · exact hba
      · exact hb x hx

theorem pySortStrs_pairwise : ∀ l : List String,
    (pySortStrs l).Pairwise (fun x y => strLe x y = true)
  | [] => List.Pairwise.nil
  | a :: l => insertStr_pairwise a (pySortStrs l) (pySortStrs_pairwise l)

/-- Seven concrete open PRs, the input of the batching example in the
claim about the detail-fetch schedule. -/
def sevenPRs : List PullRequest :=
  [⟨1, "a", 0, false⟩, ⟨2, "b", 0, false⟩, ⟨3, "c", 0, false⟩, ⟨4, "d", 0, false⟩,
   ⟨5, "e", 0, false⟩, ⟨6, "f", 0, false⟩, ⟨7, "g", 0, false⟩]

end GhPr

namespace GhPr

/-- C1 counterexample: on seven PRs the detail-fetch schedule of
`analyze` does not consist of three batches with at most three requests
in flight — it is a single `asyncio.gather` over all seven. -/
theorem detailFetchPlan_not_batched :
    ¬ (batchCount (detailFetchPlan sevenPRs) = 3 ∧
       maxInFlight (detailFetchPlan sevenPRs) ≤ 3 ∧
       pauseCount (detailFetchPlan sevenPRs) = 2) := by
  decide

/-- C1 amended: the detail-fetch orchestration issues the fetches of
all PRs in one single concurrent batch and waits for it as a whole;
there are no size-3 batches, no inter-batch pauses, and the number of
requests in flight equals the number of PRs. -/
theorem detailFetchPlan_single_batch (prs : List PullRequest) :
    detailFetchPlan prs = [FetchStep.batch (prs.map PullRequest.number)] ∧
    batchCount (detailFetchPlan prs) = 1 ∧
    pauseCount (detailFetchPlan prs) = 0 ∧
    maxInFlight (detailFetchPlan prs) = prs.length := by
  refine ⟨rfl, rfl, rfl, ?_⟩
  simp [detailFetchPlan, maxInFlight]

/-- C7 counterexample: a PR whose creation timestamp lies one day after
the `now` reference gets Days Open `-1`, so the field is not always
non-negative (the code never clamps, and `timedelta.days` floors). -/
theorem days_open_negative :
    pyGet (process_pr 0 ⟨1, "t", 86400, false⟩ ⟨[], 0, 0, []⟩) "Days Open" =
      some (.vint (-1)) := by
  decide

/-- C7 amended: Days Open is the floor of the elapsed seconds between
`now` and the creation timestamp divided by 86400, hence non-negative
whenever the PR was created at or before `now` (and negative otherwise,
as the counterexample shows). -/
theorem days_open_floor (now : Int) (pr : PullRequest) (details : PRDetails)
    (h : pr.created_at ≤ now) :
    pyGet (process_pr now pr details) "Days Open" =
      some (.vint (daysOpen now pr.created_at)) ∧
    0 ≤ daysOpen now pr.created_at ∧
    daysOpen now pr.created_at * 86400 ≤ now - pr.created_at ∧
    now - pr.created_at < daysOpen now pr.created_at * 86400 + 86400 := by
  refine ⟨rfl, ?_, ?_, ?_⟩ <;>
  · unfold daysOpen
    rw [Int.fdiv_eq_ediv _ (by omega : (0:Int) ≤ 86400)]
    omega

/-- C7 witness: a PR created two days and five seconds before `now` has
Days Open 2, a value consistent with the floor bounds. -/
theorem days_open_floor_witness :
    (⟨1, "t", 0, false⟩ : PullRequest).created_at ≤ 172805 ∧
    (pyGet (process_pr 172805 ⟨1, "t", 0, false⟩ ⟨[], 0, 0, []⟩) "Days Open" =
        some (.vint (daysOpen 172805 (⟨1, "t", 0, false⟩ : PullRequest).created_at)) ∧
      0 ≤ daysOpen 172805 (⟨1, "t", 0, false⟩ : PullRequest).created_at ∧
      daysOpen 172805 (⟨1, "t", 0, false⟩ : PullRequest).created_at * 86400 ≤
          172805 - (⟨1, "t", 0, false⟩ : PullRequest).created_at ∧
      172805 - (⟨1, "t", 0, false⟩ : PullRequest).created_at <
          daysOpen 172805 (⟨1, "t", 0, false⟩ : PullRequest).created_at * 86400 + 86400) :=
  ⟨by decide, days_open_floor 172805 ⟨1, "t", 0, false⟩ ⟨[], 0, 0, []⟩ (by decide)⟩

/-- C9 counterexample: a PR with an empty changed-file list has an
empty File Types field, so the field is not "never empty". -/
theorem file_types_empty :
    pyGet (process_pr 0 ⟨1, "t", 0, false⟩ ⟨[], 0, 0, []⟩) "File Types" =
      some (.vstr "") := by
  decide

/-- C9 amended: File Types is the sorted, comma-joined set of distinct
per-file extensions — the part after the last dot, or `no_ext` for a
dotless filename — and is empty exactly when no extensions arise (in
particular for an empty file list); the example files yield
`go, no_ext`. -/
theorem file_types_sorted_set (files : List String) (f : String)
    (h : f.data.contains '.' = false) :
    extOf f = "no_ext" ∧
    (sortedExts files).Pairwise (fun a b => strLe a b = true) ∧
    (sortedExts files).Nodup ∧
    (∀ e, e ∈ sortedExts files ↔ ∃ fn ∈ files, extOf fn = e) ∧
    extOf "x.tar.gz" = "gz" ∧
    fileTypesText ["a.go", "b.go", "README"] = "go, no_ext" ∧
    fileTypesText [] = "" := by
  refine ⟨?_, pySortStrs_pairwise _, ?_, ?_, by decide, by decide, rfl⟩
  · unfold extOf
    rw [if_neg (fun hc => Bool.false_ne_true (h ▸ hc))]
  · exact ((pySortStrs_perm _).nodup_iff).mpr (List.nodup_dedup _)
  · intro e
    unfold sortedExts
    rw [(pySortStrs_perm _).mem_iff, List.mem_dedup, List.mem_map]

/-- C9 witness: the file `README` has no dot, so its extension is the
sentinel, and the concrete joined texts come out as stated. -/
theorem file_types_sorted_set_witness :
    ("README".data.contains '.' = false) ∧
    (extOf "README" = "no_ext" ∧ fileTypesText ["a.go", "b.go", "README"] = "go, no_ext") :=
  ⟨by decide,
    ⟨(file_types_sorted_set [] "README" (by decide)).1,
      (file_types_sorted_set [] "README" (by decide)).2.2.2.2.2.1⟩⟩

/-- C10: with the `json` output format, `display_results` prints the
given records and returns immediately — the history is returned
untouched (no snapshot is read for diffing and none is written), so no
deltas and no CLOSED rows are ever computed on this path. -/
theorem display_results_json (hist : History) (ts : String) (data : List Row) (user : String) :
    display_results "json" hist ts data user = some (hist, Rendered.jsonOut data) := rfl

/-- C2: the selected statuses never filter anything.  A draft PR whose
classified status `DRAFT` is not among the selected statuses
(`["READY"]`) still contributes its metrics record to the data that
`analyze` renders and diffs. -/
theorem analyze_ignores_status_filter :
    classify true [] = "DRAFT" ∧
    "DRAFT" ∉ (["READY"] : List String) ∧
    process_pr 0 ⟨1, "draft pr", 0, true⟩ ⟨[], 0, 0, []⟩ ∈
      analyze_pr_data 0
        [(⟨1, "draft pr", 0, true⟩, ⟨[], 0, 0, []⟩),
         (⟨2, "ready pr", 0, false⟩, ⟨[⟨"alice", "APPROVED"⟩], 0, 0, []⟩)]
        ["READY"] := by
  refine ⟨rfl, by decide, ?_⟩
  simp [analyze_pr_data]

/-- Emptiness of the approvers list is exactly the presence of a review
whose state lowercases to `approved`. -/
theorem approversOf_ne_nil {reviews : List Review} :
    approversOf reviews ≠ [] ↔ ∃ r ∈ reviews, strLower r.state = "approved" := by
  unfold approversOf
  rw [Ne, List.map_eq_nil_iff, List.filter_eq_nil_iff]
  push_neg
  simp only [decide_eq_true_eq]

/-- Membership in the aggregate status list. -/
theorem mem_get_available_statuses {s : String} {prs : List (PullRequest × PRDetails)} :
    s ∈ get_available_statuses prs ↔ s = "ALL" ∨ ∃ pd ∈ prs, s ∈ prStatuses pd.1 pd.2 := by
  unfold get_available_statuses
  rw [(pySortStrs_perm _).mem_iff, List.mem_dedup, List.mem_cons, List.mem_flatten]
  constructor
  · rintro (rfl | ⟨l, hl, hs⟩)
    · exact Or.inl rfl
    · rcases List.mem_map.mp hl with ⟨pd, hpd, rfl⟩
      exact Or.inr ⟨pd, hpd, hs⟩
  · rintro (rfl | ⟨pd, hpd, hs⟩)
    · exact Or.inl rfl
    · exact Or.inr ⟨prStatuses pd.1 pd.2, List.mem_map.mpr ⟨pd, hpd, rfl⟩, hs⟩

/-- C8: the classification is total with exactly the three statuses; a
draft PR is always DRAFT with the reviews never consulted; a non-draft
PR is READY exactly when some review state lowercases to `approved`,
else PENDING REVIEW; the aggregate status list always contains `ALL`,
is sorted, its members are exactly the per-PR contributions, and every
review state of a non-draft PR outside {APPROVED, COMMENTED}
(case-insensitively) appears in it uppercased. -/
theorem classify_total_and_aggregate (draft : Bool) (reviews : List Review)
    (prs : List (PullRequest × PRDetails)) :
    (classify draft reviews = "DRAFT" ∨ classify draft reviews = "READY" ∨
      classify draft reviews = "PENDING REVIEW") ∧
    (classify true reviews = "DRAFT") ∧
    (draft = false →
      ((classify draft reviews = "READY" ↔ ∃ r ∈ reviews, strLower r.state = "approved") ∧
       (classify draft reviews = "PENDING REVIEW" ↔
         ¬ ∃ r ∈ reviews, strLower r.state = "approved"))) ∧
    "ALL" ∈ get_available_statuses prs ∧
    (get_available_statuses prs).Pairwise (fun a b => strLe a b = true) ∧
    (∀ s, s ∈ get_available_statuses prs ↔
      s = "ALL" ∨ ∃ pd ∈ prs, s ∈ prStatuses pd.1 pd.2) ∧
    (∀ pd ∈ prs, pd.1.draft = false → ∀ r ∈ pd.2.reviews,
      strUpper r.state ∉ (["APPROVED", "COMMENTED"] : List String) →
      strUpper r.state ∈ get_available_statuses prs) := by
  have hfalse : ∀ rs : List Review,
      classify false rs = if approversOf rs ≠ [] then "READY" else "PENDING REVIEW" :=
    fun _ => rfl
  refine ⟨?_, rfl, ?_, mem_get_available_statuses.mpr (Or.inl rfl),
    pySortStrs_pairwise _, fun _ => mem_get_available_statuses, ?_⟩
  · cases draft
    · rw [hfalse]
      by_cases hap : approversOf reviews ≠ []
      · rw [if_pos hap]; exact Or.inr (Or.inl rfl)
      · rw [if_neg hap]; exact Or.inr (Or.inr rfl)
    · exact Or.inl rfl
  · rintro rfl
    rw [hfalse]
    by_cases hap : approversOf reviews ≠ []
    · rw [if_pos hap]
      constructor
      · exact ⟨fun _ => approversOf_ne_nil.mp hap, fun _ => rfl⟩
      · constructor
        · intro hcon
          exact absurd hcon (by decide : ¬ ("READY" : String) = "PENDING REVIEW")
        · intro hno; exact absurd (approversOf_ne_nil.mp hap) hno
    · rw [if_neg hap]
      constructor
      · constructor
        · intro hcon
          exact absurd hcon (by decide : ¬ ("PENDING REVIEW" : String) = "READY")
        · intro hex; exact absurd (approversOf_ne_nil.mpr hex) hap
      · exact ⟨fun _ hex => hap (approversOf_ne_nil.mpr hex), fun _ => rfl⟩
  · intro pd hpd hdraft r hr hstate
    refine mem_get_available_statuses.mpr (Or.inr ⟨pd, hpd, ?_⟩)
    unfold prStatuses
    rw [hdraft]
    simp only [Bool.false_eq_true, if_false, ite_false, List.mem_cons]
    refine Or.inr (List.mem_map.mpr ⟨r, List.mem_filter.mpr ⟨hr, ?_⟩, rfl⟩)
    exact decide_eq_true hstate

/-- C8 witness: one approved non-draft PR and one draft PR with a
CHANGES_REQUESTED review in lowercase produce READY via the iff and the
concrete sorted aggregate list. -/
theorem classify_total_and_aggregate_witness :
    classify false [⟨"alice", "Approved"⟩] = "READY" ∧
    get_available_statuses
      [(⟨1, "a", 0, false⟩, ⟨[⟨"u", "APPROVED"⟩, ⟨"v", "changes_requested"⟩], 0, 0, []⟩),
       (⟨2, "b", 0, true⟩, ⟨[], 0, 0, []⟩)] =
      ["ALL", "CHANGES_REQUESTED", "DRAFT", "READY"] :=
  ⟨((classify_total_and_aggregate false [⟨"alice", "Approved"⟩] []).2.2.1 rfl).1.mpr
      ⟨⟨"alice", "Approved"⟩, by decide, by decide⟩,
    by decide⟩

/-! Dictionary lemmas. -/

theorem pyGet_pySet_self : ∀ (r : Row) (k : String) (v : Value),
    pyGet (pySet r k v) k = some v
  | [], k, v => by simp [pySet, pyGet]
  | (k0, v0) :: rest, k, v => by
    unfold pySet
    by_cases h : k0 = k
    · rw [if_pos h]; simp [pyGet]
    · rw [if_neg h]
      unfold pyGet
      rw [if_neg h]
      exact pyGet_pySet_self rest k v

theorem pyGet_pySet_ne : ∀ (r : Row) {k k' : String} (v : Value), k' ≠ k →
    pyGet (pySet r k v) k' = pyGet r k'
  | [], k, k', v, h => by
    simp only [pySet, pyGet]
    rw [if_neg (fun hk => h hk.symm)]
  | (k0, v0) :: rest, k, k', v, h => by
    unfold pySet
    by_cases h0 : k0 = k
    · rw [if_pos h0]
      unfold pyGet
      rw [if_neg (fun hk => h hk.symm), if_neg (fun hk => h (h0 ▸ hk).symm)]
    · rw [if_neg h0]
      unfold pyGet
      by_cases h1 : k0 = k'
      · rw [if_pos h1, if_pos h1]
      · rw [if_neg h1, if_neg h1]
        exact pyGet_pySet_ne rest v h

theorem pyGet_of_mem_nodup : ∀ {r : Row} {k : String} {v : Value},
    (r.map Prod.fst).Nodup → (k, v) ∈ r → pyGet r k = some v := by
  intro r
  induction r with
  | nil => intro k v _ hmem; cases hmem
  | cons p rest ih =>
    intro k v hnd hmem
    obtain ⟨k0, v0⟩ := p
    rw [List.map_cons, List.nodup_cons] at hnd
    rcases List.mem_cons.mp hmem with heq | hmem'
    · obtain ⟨rfl, rfl⟩ := Prod.mk.injEq .. ▸ heq
      · simp [pyGet]
    · unfold pyGet
      have hk : k0 ≠ k := by
        rintro rfl
        exact hnd.1 (List.mem_map.mpr ⟨(k0, v), hmem', rfl⟩)
      rw [if_neg hk]
      exact ih hnd.2 hmem'

/-! Diff-engine lemmas. -/

/-- The completed membership test of the closed-PR filter, the value the
generator `any(...)` produces when no `KeyError` interrupts it. -/
def matched (current : List Row) (p : Row) : Bool :=
  current.any fun c => decide (pyGet c "PR #" = pyGet p "PR #")

theorem anyMatch_sound : ∀ {current : List Row} {p : Row} {b : Bool},
    anyMatch current p = some b → b = matched current p := by
  intro current
  induction current with
  | nil =>
    intro p b h
    cases h
    rfl
  | cons c rest ih =>
    intro p b h
    unfold anyMatch at h
    rcases hcn : pyGet c "PR #" with _ | cn <;> rw [hcn] at h
    · exact absurd (h : (none : Option Bool) = some b) (by simp)
    rcases hpn : pyGet p "PR #" with _ | pn <;> rw [hpn] at h
    · exact absurd (h : (none : Option Bool) = some b) (by simp)
    have h' : (if cn = pn then some true else anyMatch rest p) = some b := h
    unfold matched
    rw [List.any_cons]
    by_cases he : cn = pn
    · rw [if_pos he] at h'
      cases h'
      have hd : decide (pyGet c "PR #" = pyGet p "PR #") = true := by
        rw [hcn, hpn, he]
        simp
      rw [hd, Bool.true_or]
    · rw [if_neg he] at h'
      have hd : decide (pyGet c "PR #" = pyGet p "PR #") = false := by
        rw [hcn, hpn]
        simp [he]
      rw [hd, Bool.false_or]
      exact ih h'

theorem anyMatch_self : ∀ {current : List Row} {p : Row},
    (∀ c ∈ current, (pyGet c "PR #").isSome) → p ∈ current →
    anyMatch current p = some true := by
  intro current
  induction current with
  | nil => intro p _ hmem; cases hmem
  | cons c rest ih =>
    intro p hpr hmem
    rcases hcn : pyGet c "PR #" with _ | cn
    · exact absurd (hcn ▸ hpr c (List.mem_cons_self c rest)) (by simp)
    rcases hpn : pyGet p "PR #" with _ | pn
    · exact absurd (hpn ▸ hpr p hmem) (by simp)
    unfold anyMatch
    rw [hcn, hpn]
    show (if cn = pn then some true else anyMatch rest p) = some true
    by_cases he : cn = pn
    · rw [if_pos he]
    · rw [if_neg he]
      rcases List.mem_cons.mp hmem with rfl | hmem'
      · rw [hcn] at hpn
        cases hpn
        exact absurd rfl he
      · exact ih (fun r hr => hpr r (List.mem_cons_of_mem c hr)) hmem'

theorem closeMissing_eq : ∀ {current previous : List Row} {prevOut closed : List Row},
    closeMissing current previous = some (prevOut, closed) →
    prevOut = previous.map (fun p => if matched current p then p else markClosed p) ∧
    closed = (previous.filter fun p => !matched current p).map markClosed := by
  intro current previous
  induction previous with
  | nil =>
    intro prevOut closed h
    cases h
    exact ⟨rfl, rfl⟩
  | cons p rest ih =>
    intro prevOut closed h
    unfold closeMissing at h
    rcases ham : anyMatch current p with _ | b <;> rw [ham] at h
    · cases h
    rcases hcm : closeMissing current rest with _ | po_cl <;> rw [hcm] at h
    · cases h
    obtain ⟨po, cl⟩ := po_cl
    obtain ⟨hpo, hcl⟩ := ih hcm
    have hb : b = matched current p := anyMatch_sound ham
    cases b
    · have hm : matched current p = false := hb.symm
      have h' : (some (markClosed p :: po, markClosed p :: cl) :
          Option (List Row × List Row)) = some (prevOut, closed) := h
      have hpair := Option.some.inj h'
      have h1 : markClosed p :: po = prevOut := congrArg Prod.fst hpair
      have h2 : markClosed p :: cl = closed := congrArg Prod.snd hpair
      subst h1
      subst h2
      constructor
      · rw [List.map_cons, hm]
        simp only [Bool.false_eq_true, if_false, ite_false, hpo]
      · rw [List.filter_cons, hm]
        simp only [Bool.not_false, if_pos, ite_true, List.map_cons, hcl]
    · have hm : matched current p = true := hb.symm
      have h' : (some (p :: po, cl) : Option (List Row × List Row)) = some (prevOut, closed) := h
      have hpair := Option.some.inj h'
      have h1 : p :: po = prevOut := congrArg Prod.fst hpair
      have h2 : cl = closed := congrArg Prod.snd hpair
      subst h1
      subst h2
      constructor
      · rw [List.map_cons, hm]
        simp only [ite_true, if_pos, hpo]
      · rw [List.filter_cons, hm]
        simp only [Bool.not_true, Bool.false_eq_true, if_false, ite_false, hcl]

theorem closeMissing_self : ∀ {current previous : List Row},
    (∀ p ∈ previous, anyMatch current p = some true) →
    closeMissing current previous = some (previous, []) := by
  intro current previous
  induction previous with
  | nil => intro _; rfl
  | cons p rest ih =>
    intro h
    unfold closeMissing
    rw [h p (List.mem_cons_self p rest), ih (fun q hq => h q (List.mem_cons_of_mem p hq))]
    rfl

theorem applyDiffs_of_match (prev : Row) : ∀ (items : List (String × Value)) (row : Row),
    (∀ kv ∈ items, pyGet prev kv.1 = some kv.2) →
    applyDiffs prev items row = some row
  | [], _, _ => rfl
  | (k, cv) :: items, row, h => by
    unfold applyDiffs
    by_cases hk : k = "PR #" ∨ k = "Title" ∨ k = "File Types"
    · rw [if_pos hk]
      exact applyDiffs_of_match prev items row fun kv hkv => h kv (List.mem_cons_of_mem _ hkv)
    · rw [if_neg hk]
      have hp : pyGet prev k = some cv := h (k, cv) (List.mem_cons_self _ _)
      rw [hp]
      have htail : ∀ kv ∈ items, pyGet prev kv.1 = some kv.2 :=
        fun kv hkv => h kv (List.mem_cons_of_mem _ hkv)
      cases cv with
      | vint c =>
        show (if c - c ≠ 0 then
            applyDiffs prev items (pySet row k (.vstr (deltaText c (c - c))))
          else applyDiffs prev items row) = some row
        rw [if_neg (by omega)]
        exact applyDiffs_of_match prev items row htail
      | vstr s =>
        show applyDiffs prev items row = some row
        exact applyDiffs_of_match prev items row htail

theorem applyDiffs_preserves (prev : Row) : ∀ (items : List (String × Value)) (row row' : Row),
    applyDiffs prev items row = some row' →
    ∀ k', (k' = "PR #" ∨ k' = "Title" ∨ k' = "File Types") →
    pyGet row' k' = pyGet row k'
  | [], row, row', h, k', _ => by
    cases h
    rfl
  | (k, cv) :: items, row, row', h, k', hk' => by
    unfold applyDiffs at h
    by_cases hk : k = "PR #" ∨ k = "Title" ∨ k = "File Types"
    · rw [if_pos hk] at h
      exact applyDiffs_preserves prev items row row' h k' hk'
    · rw [if_neg hk] at h
      have hne : k' ≠ k := fun he => hk (he ▸ hk')
      rcases hp : pyGet prev k with _ | pv <;> rw [hp] at h
      · exact absurd (h : (none : Option Row) = some row') (by simp)
      cases cv with
      | vint c =>
        cases pv with
        | vint p =>
          have h' : (if c - p ≠ 0 then
              applyDiffs prev items (pySet row k (.vstr (deltaText c (c - p))))
            else applyDiffs prev items row) = some row' := h
          by_cases hd : c - p ≠ 0
          · rw [if_pos hd] at h'
            rw [applyDiffs_preserves prev items _ row' h' k' hk']
            exact pyGet_pySet_ne row _ hne
          · rw [if_neg hd] at h'
            exact applyDiffs_preserves prev items row row' h' k' hk'
        | vstr s =>
          exact applyDiffs_preserves prev items row row'
            (h : applyDiffs prev items row = some row') k' hk'
      | vstr s =>
        exact applyDiffs_preserves prev items row row'
          (h : applyDiffs prev items row = some row') k' hk'

theorem findPrev_self : ∀ {previous : List Row} {curr : Row} {n : Value},
    (∀ r ∈ previous, (pyGet r "PR #").isSome) →
    previous.Pairwise (fun a b => pyGet a "PR #" ≠ pyGet b "PR #") →
    curr ∈ previous → pyGet curr "PR #" = some n →
    findPrev previous n = some (some curr) := by
  intro previous
  induction previous with
  | nil => intro curr n _ _ hmem _; cases hmem
  | cons p rest ih =>
    intro curr n hpr hdist hmem hn
    rcases hpm : pyGet p "PR #" with _ | m
    · exact absurd (hpm ▸ hpr p (List.mem_cons_self p rest)) (by simp)
    rw [List.pairwise_cons] at hdist
    unfold findPrev
    rw [hpm]
    show (if m = n then some (some p) else findPrev rest n) = some (some curr)
    rcases List.mem_cons.mp hmem with rfl | hmem'
    · have hmn : m = n := by
        rw [hpm] at hn
        exact Option.some.inj hn
      rw [if_pos hmn]
    · have hmn : m ≠ n := by
        intro he
        exact hdist.1 curr hmem' (by rw [hpm, hn, he])
      rw [if_neg hmn]
      exact ih (fun r hr => hpr r (List.mem_cons_of_mem p hr)) hdist.2 hmem' hn

theorem diffRows_spec (previous : List Row) : ∀ {current rows : List Row},
    diffRows previous current = some rows →
    rows.length = current.length ∧
    (∀ i (hi : i < current.length) (hi' : i < rows.length) (k' : String),
      (k' = "PR #" ∨ k' = "Title" ∨ k' = "File Types") →
      pyGet (rows.get ⟨i, hi'⟩) k' = pyGet (current.get ⟨i, hi⟩) k') := by
  intro current
  induction current with
  | nil =>
    intro rows h
    cases h
    exact ⟨rfl, fun i hi => absurd hi (Nat.not_lt_zero i)⟩
  | cons curr rest ih =>
    intro rows h
    unfold diffRows at h
    rcases hn : pyGet curr "PR #" with _ | n <;> rw [hn] at h
    · exact absurd (h : (none : Option (List Row)) = some rows) (by simp)
    simp only [Option.bind_eq_bind, Option.some_bind] at h
    rcases hf : findPrev previous n with _ | pm <;> rw [hf] at h
    · exact absurd (h : (none : Option (List Row)) = some rows) (by simp)
    simp only [Option.some_bind] at h
    have hstep : ∀ row : Row, pyGet row "PR #" = pyGet curr "PR #" →
        pyGet row "Title" = pyGet curr "Title" →
        pyGet row "File Types" = pyGet curr "File Types" →
        (Option.bind (diffRows previous rest) fun rs => some (row :: rs)) = some rows →
        rows.length = (curr :: rest).length ∧
        (∀ i (hi : i < (curr :: rest).length) (hi' : i < rows.length) (k' : String),
          (k' = "PR #" ∨ k' = "Title" ∨ k' = "File Types") →
          pyGet (rows.get ⟨i, hi'⟩) k' = pyGet ((curr :: rest).get ⟨i, hi⟩) k') := by
      intro row hpr htl hft hbind
      rcases hrest : diffRows previous rest with _ | rows' <;> rw [hrest] at hbind
      · exact absurd (hbind : (none : Option (List Row)) = some rows) (by simp)
      have hcons : row :: rows' = rows := Option.some.inj hbind
      subst hcons
      obtain ⟨hlen, hpres⟩ := ih hrest
      refine ⟨by simp [hlen], ?_⟩
      intro i hi hi' k' hk'
      cases i with
      | zero =>
        rcases hk' with rfl | rfl | rfl
        · exact hpr
        · exact htl
        · exact hft
      | succ j =>
        exact hpres j (Nat.lt_of_succ_lt_succ hi) (Nat.lt_of_succ_lt_succ hi') k' hk'
    cases pm with
    | none =>
      exact hstep curr rfl rfl rfl h
    | some prev =>
      have h' : Option.bind (applyDiffs prev curr curr)
          (fun row => Option.bind (diffRows previous rest) fun rs => some (row :: rs)) =
          some rows := h
      clear h
      rcases hap : applyDiffs prev curr curr with _ | row <;> rw [hap] at h'
      · exact absurd (h' : (none : Option (List Row)) = some rows) (by simp)
      exact hstep row
        (applyDiffs_preserves prev curr curr row hap "PR #" (Or.inl rfl))
        (applyDiffs_preserves prev curr curr row hap "Title" (Or.inr (Or.inl rfl)))
        (applyDiffs_preserves prev curr curr row hap "File Types" (Or.inr (Or.inr rfl)))
        h'

theorem diffRows_self_aux {X : List Row}
    (hkeys : ∀ r ∈ X, (r.map Prod.fst).Nodup)
    (hpr : ∀ r ∈ X, (pyGet r "PR #").isSome)
    (hdist : X.Pairwise fun a b => pyGet a "PR #" ≠ pyGet b "PR #") :
    ∀ current : List Row, (∀ r ∈ current, r ∈ X) → diffRows X current = some current := by
  intro current
  induction current with
  | nil => intro _; rfl
  | cons curr rest ih =>
    intro hsub
    have hcm : curr ∈ X := hsub curr (List.mem_cons_self curr rest)
    rcases hn : pyGet curr "PR #" with _ | n
    · exact absurd (hn ▸ hpr curr hcm) (by simp)
    unfold diffRows
    rw [hn]
    simp only [Option.bind_eq_bind, Option.some_bind]
    rw [findPrev_self hpr hdist hcm hn]
    simp only [Option.some_bind]
    rw [applyDiffs_of_match curr curr curr
      (fun kv hkv => pyGet_of_mem_nodup (hkeys curr hcm)
        (show (kv.1, kv.2) ∈ curr by rwa [Prod.mk.eta]))]
    simp only [Option.some_bind]
    rw [ih fun r hr => hsub r (List.mem_cons_of_mem curr hr)]
    rfl

/-- C5: diffing a record sequence against itself returns it unchanged —
every numeric delta is zero so no display value is replaced, no CLOSED
row is appended, and the previous sequence is not mutated — provided
each record is a well-formed dict (distinct keys) carrying a PR number
and the PR numbers are pairwise distinct. -/
theorem calculate_diffs_self (X : List Row)
    (hkeys : ∀ r ∈ X, (r.map Prod.fst).Nodup)
    (hpr : ∀ r ∈ X, (pyGet r "PR #").isSome)
    (hdist : X.Pairwise fun a b => pyGet a "PR #" ≠ pyGet b "PR #") :
    calculate_diffs X X = some (X, X) := by
  unfold calculate_diffs
  rw [diffRows_self_aux hkeys hpr hdist X fun r hr => hr]
  simp only [Option.bind_eq_bind, Option.some_bind]
  rw [closeMissing_self fun p hp => anyMatch_self hpr hp]
  simp only [Option.some_bind, List.append_nil]

/-- C6: whenever `calculate_diffs` completes, its result is one row per
current record, in the current order (same PR number and Title
position by position), followed by exactly the previous records whose
PR number occurs in no current record, in their previous order, each
carrying the Status field marking it CLOSED. -/
theorem calculate_diffs_shape (current previous res prevOut : List Row)
    (h : calculate_diffs current previous = some (res, prevOut)) :
    ∃ rows, diffRows previous current = some rows ∧
      res = rows ++ (previous.filter fun p => !matched current p).map markClosed ∧
      rows.length = current.length ∧
      (∀ i (hi : i < current.length) (hi' : i < rows.length),
        pyGet (rows.get ⟨i, hi'⟩) "PR #" = pyGet (current.get ⟨i, hi⟩) "PR #" ∧
        pyGet (rows.get ⟨i, hi'⟩) "Title" = pyGet (current.get ⟨i, hi⟩) "Title") ∧
      (∀ r ∈ (previous.filter fun p => !matched current p).map markClosed,
        pyGet r "Status" = some (.vstr "[red]CLOSED[/]")) := by
  unfold calculate_diffs at h
  rcases hdr : diffRows previous current with _ | rows <;> rw [hdr] at h
  · exact absurd (h : (none : Option (List Row × List Row)) = some (res, prevOut)) (by simp)
  simp only [Option.bind_eq_bind, Option.some_bind] at h
  rcases hcm : closeMissing current previous with _ | pocl <;> rw [hcm] at h
  · exact absurd (h : (none : Option (List Row × List Row)) = some (res, prevOut)) (by simp)
  obtain ⟨po, cl⟩ := pocl
  simp only [Option.some_bind] at h
  have hpair := Option.some.inj h
  have h1 : rows ++ cl = res := congrArg Prod.fst hpair
  obtain ⟨hpo, hcl⟩ := closeMissing_eq hcm
  obtain ⟨hlen, hpres⟩ := diffRows_spec previous hdr
  refine ⟨rows, rfl, by rw [← h1, hcl], hlen, ?_, ?_⟩
  · intro i hi hi'
    exact ⟨hpres i hi hi' "PR #" (Or.inl rfl), hpres i hi hi' "Title" (Or.inr (Or.inl rfl))⟩
  · intro r hr
    rcases List.mem_map.mp hr with ⟨p, _, rfl⟩
    exact pyGet_pySet_self p "Status" _

/-- C4 amended: the diff engine never touches the current records (each
output row is a fresh copy), and previous records whose PR number still
occurs in current are returned unchanged; but every previous record
flagged CLOSED is mutated in place — its Status key is set — so the
post-state of `previous_data` is the map below rather than the input. -/
theorem calculate_diffs_mutation_frame (current previous res prevOut : List Row)
    (h : calculate_diffs current previous = some (res, prevOut)) :
    prevOut = previous.map fun p => if matched current p then p else markClosed p := by
  unfold calculate_diffs at h
  rcases hdr : diffRows previous current with _ | rows <;> rw [hdr] at h
  · exact absurd (h : (none : Option (List Row × List Row)) = some (res, prevOut)) (by simp)
  simp only [Option.bind_eq_bind, Option.some_bind] at h
  rcases hcm : closeMissing current previous with _ | pocl <;> rw [hcm] at h
  · exact absurd (h : (none : Option (List Row × List Row)) = some (res, prevOut)) (by simp)
  obtain ⟨po, cl⟩ := pocl
  simp only [Option.some_bind] at h
  have h2 : po = prevOut := congrArg Prod.snd (Option.some.inj h)
  rw [← h2, (closeMissing_eq hcm).1]

/-- A concrete PR and detail set: PR #1, created four days before the
run's `now`, two Go files, three commits, five comments. -/
def exPR1 : PullRequest := ⟨1, "t1", 0, false⟩

/-- Details for `exPR1`. -/
def exDet1 : PRDetails := ⟨[], 5, 3, ["a.go", "b.go"]⟩

/-- The metrics row `process_pr` computes for `exPR1` in a run whose
clock reads four days after its creation. -/
def exRow1c : Row := process_pr 345600 exPR1 exDet1

/-- The previous snapshot's row for PR #1: same record, two comments. -/
def exRow1p : Row :=
  [("PR #", .vint 1), ("Title", .vstr "t1"), ("Days Open", .vint 4),
   ("Files Changed", .vint 2), ("Commits", .vint 3), ("File Types", .vstr "go"),
   ("Comments", .vint 2)]

/-- The previous snapshot's row for PR #2, no longer open. -/
def exRow2p : Row :=
  [("PR #", .vint 2), ("Title", .vstr "t2"), ("Days Open", .vint 9),
   ("Files Changed", .vint 1), ("Commits", .vint 1), ("File Types", .vstr "py"),
   ("Comments", .vint 0)]

/-- The diffed display row for PR #1: Comments replaced by the
delta-annotated text. -/
def exRow1Ann : Row :=
  [("PR #", .vint 1), ("Title", .vstr "t1"), ("Days Open", .vint 4),
   ("Files Changed", .vint 2), ("Commits", .vint 3), ("File Types", .vstr "go"),
   ("Comments", .vstr "5 ([green]+3[/])")]

/-- The row for PR #2 after the diff pass marked it closed in place. -/
def exRow2Closed : Row := exRow2p ++ [("Status", Value.vstr "[red]CLOSED[/]")]

/-- C3: on a table run, the snapshot saved for the user is the diffed
display sequence, not the run's plain metrics records: the stored rows
carry the delta-annotated Comments string and the CLOSED row of a PR
that is no longer open. -/
theorem snapshot_saves_annotated_rows :
    exRow1c =
      [("PR #", .vint 1), ("Title", .vstr "t1"), ("Days Open", .vint 4),
       ("Files Changed", .vint 2), ("Commits", .vint 3), ("File Types", .vstr "go"),
       ("Comments", .vint 5)] ∧
    display_results "table" [("u", ⟨"t0", [exRow1p, exRow2p]⟩)] "t1" [exRow1c] "u" =
      some ([("u", ⟨"t1", [exRow1Ann, exRow2Closed]⟩)],
        Rendered.tableOut [exRow1Ann, exRow2Closed]) ∧
    pyGet exRow1Ann "Comments" = some (.vstr "5 ([green]+3[/])") ∧
    pyGet exRow2Closed "Status" = some (.vstr "[red]CLOSED[/]") ∧
    [exRow1Ann, exRow2Closed] ≠ [exRow1c] := by
  decide

/-- C4 counterexample: diffing an empty current set against a previous
record mutates that record — the returned previous sequence carries the
added Status key, so the inputs are not left unmodified. -/
theorem calculate_diffs_mutates_previous :
    calculate_diffs [] [exRow2p] = some ([exRow2Closed], [exRow2Closed]) ∧
    exRow2Closed ≠ exRow2p := by
  decide

/-- C4 witness: with PR #1 still open and PR #2 gone, the post-state of
the previous sequence keeps row 1 and mutates row 2. -/
theorem calculate_diffs_mutation_frame_witness :
    [exRow1p, exRow2Closed] =
      [exRow1p, exRow2p].map fun p => if matched [exRow1c] p then p else markClosed p :=
  calculate_diffs_mutation_frame [exRow1c] [exRow1p, exRow2p]
    [exRow1Ann, exRow2Closed] [exRow1p, exRow2Closed] (by decide)

/-- C5 witness: a two-record set with distinct PR numbers diffed
against itself comes back exactly as it went in. -/
theorem calculate_diffs_self_witness :
    (∀ r ∈ [exRow1c, exRow2p], (r.map Prod.fst).Nodup) ∧
    (∀ r ∈ [exRow1c, exRow2p], (pyGet r "PR #").isSome) ∧
    calculate_diffs [exRow1c, exRow2p] [exRow1c, exRow2p] =
      some ([exRow1c, exRow2p], [exRow1c, exRow2p]) :=
  ⟨by decide, by decide,
    calculate_diffs_self [exRow1c, exRow2p] (by decide) (by decide) (by decide)⟩

/-- C6 witness: previous `[PR#1, PR#2]` against current `[PR#1]` yields
the PR#1 row first and then PR#2 marked CLOSED. -/
theorem calculate_diffs_shape_witness :
    ∃ rows, diffRows [exRow1p, exRow2p] [exRow1c] = some rows ∧
      [exRow1Ann, exRow2Closed] =
        rows ++ ([exRow1p, exRow2p].filter fun p => !matched [exRow1c] p).map markClosed ∧
      rows.length = [exRow1c].length ∧
      (∀ i (hi : i < [exRow1c].length) (hi' : i < rows.length),
        pyGet (rows.get ⟨i, hi'⟩) "PR #" = pyGet ([exRow1c].get ⟨i, hi⟩) "PR #" ∧
        pyGet (rows.get ⟨i, hi'⟩) "Title" = pyGet ([exRow1c].get ⟨i, hi⟩) "Title") ∧
      (∀ r ∈ ([exRow1p, exRow2p].filter fun p => !matched [exRow1c] p).map markClosed,
        pyGet r "Status" = some (.vstr "[red]CLOSED[/]")) :=
  calculate_diffs_shape [exRow1c] [exRow1p, exRow2p]
    [exRow1Ann, exRow2Closed] [exRow1p, exRow2Closed] (by decide)

end GhPr
